import Mathlib

/-!
Verification of the package-validator dependency resolution engine.

The definitions below are a shallow embedding of the Rust sources under
`package_validator/src`:
* `invalid_path`, `collect_invalid_paths`, `validate` — `package/elf.rs`
* `normalize_path`, `normalize_paths` — `package/elf.rs`
* `resolve_single_symlink`, `resolve_symlinks` — `report/symlink_resolver.rs`
* `resolve_dependency` and its helpers — `report/dependency_resolver.rs`
* `scan_for_errors` — `report/errors.rs`
* `Totals` — `report/totals/dependencies.rs`

Strings are modelled as `List Char`; the strings being analysed (RPATH
entries, dependency names, in-package paths) are ASCII, so character
positions coincide with the byte offsets used by Rust's `str::find`.
Hash maps are modelled as association lists with unique keys.
-/

namespace PV

abbrev Str := List Char

def strL (s : String) : Str := s.toList

/-- Boolean prefix test on character lists (Rust `str::starts_with` on a
string pattern, and the building block for substring search). -/
def isPre : Str → Str → Bool
  | [], _ => true
  | _ :: _, [] => false
  | a :: as, b :: bs => a = b && isPre as bs

/-- First index at which `pat` occurs as a contiguous substring of `s`
(Rust `str::find` with a string pattern, with char positions standing
for byte offsets of the ASCII inputs). -/
def findSub (pat : Str) : Str → Option Nat
  | [] => if pat.isEmpty then some 0 else none
  | c :: rest =>
    if isPre pat (c :: rest) then some 0
    else (findSub pat rest).map (· + 1)

/-- Substring containment (Rust `str::contains`). -/
def containsSub (pat s : Str) : Bool := (findSub pat s).isSome

/-- Replace every (leftmost, non-overlapping) occurrence of `pat` in `s` by
`rep`, for non-empty `pat` (Rust `str::replace`). -/
def replaceSubAux (pat rep : Str) : Str → Str
  | [] => []
  | c :: rest =>
    if isPre pat (c :: rest) then
      rep ++ replaceSubAux pat rep (List.drop (pat.length - 1) rest)
    else
      c :: replaceSubAux pat rep rest
termination_by s => s.length
decreasing_by
  · simp only [List.length_drop, List.length_cons]
    omega
  · simp only [List.length_cons]
    omega

def replaceSub (pat rep s : Str) : Str :=
  if pat.isEmpty then s else replaceSubAux pat rep s

def tokOrigin : Str := strL "$ORIGIN"

def tokBraceOrigin : Str := strL "${ORIGIN}"

/-- `Elf::invalid_path` from `package/elf.rs`: a raw RPATH/RUNPATH entry is
invalid when it is neither absolute nor anchored at `$ORIGIN`.  Mirrors
`path.find("$ORIGIN").or_else(|| path.find("${ORIGIN}"))` followed by the
`pos != 0` check. -/
def invalid_path (path : Str) : Bool :=
  if path.head? = some '/' then false
  else
    match (findSub tokOrigin path).or (findSub tokBraceOrigin path) with
    | some pos => pos != 0
    | none => true

/-- `Elf::collect_invalid_paths`: error message per invalid entry,
`format!("{prefix}: {path} is invalid")`. -/
def collect_invalid_paths (paths : List Str) (tag : Str) : List Str :=
  (paths.filter (fun p => invalid_path p)).map
    (fun p => tag ++ strL ": " ++ p ++ strL " is invalid")

/-- `Elf::validate`: validate both lists, RUNPATH messages first;
`Except.error` carries the offender messages (Rust `Err(Vec<String>)`). -/
def validate (rpath runpath : List Str) : Except (List Str) Unit :=
  let invalid :=
    (if runpath ≠ [] then collect_invalid_paths runpath (strL "RUNPATH") else []) ++
    (if rpath ≠ [] then collect_invalid_paths rpath (strL "RPATH") else [])
  if invalid = [] then .ok () else .error invalid

/-- Position of the first occurrence of either `$ORIGIN` or `${ORIGIN}`
in `s` — the quantity the specification's validation rule speaks about
("locate the first occurrence of the literal substring `$ORIGIN` or
`${ORIGIN}`"). -/
def firstTokenPos (s : Str) : Option Nat :=
  match findSub tokOrigin s, findSub tokBraceOrigin s with
  | some a, some b => some (min a b)
  | some a, none => some a
  | none, some b => some b
  | none, none => none

/-! ### Lexical path cleaning and search-path normalization -/

/-- Split a character list on `'/'`, keeping empty components
(Rust `str::split('/')`). -/
def splitSlash (s : Str) : List Str :=
  s.foldr
    (fun c acc =>
      if c = '/' then [] :: acc
      else
        match acc with
        | [] => [[c]]
        | a :: as => (c :: a) :: as)
    [[]]

/-- Stack step of lexical cleaning for absolute paths: skip empty and `.`
components, let `..` pop the last retained component (or vanish at the
root), and push everything else. -/
def cleanStep (st : List Str) (c : Str) : List Str :=
  if c = [] ∨ c = ['.'] then st
  else if c = ['.', '.'] then st.dropLast
  else st ++ [c]

/-- `path_clean::PathClean::clean` restricted to absolute paths (the only
inputs it receives in `Elf::normalize_path`): collapse `.`/`..` and
repeated separators lexically. -/
def cleanAbs (s : Str) : Str :=
  '/' :: List.intercalate ['/'] ((splitSlash s).foldl cleanStep [])

/-- ELF object type (`ElfType` in `package/elf.rs`). -/
inductive ElfType
  | None
  | Relocatable
  | Executable
  | SharedObject
  | Core
deriving DecidableEq

/-- Parsed ELF metadata (`Elf` in `package/elf.rs`). -/
structure Elf where
  kind : ElfType
  dependencies : List Str
  rpath : List Str
  runpath : List Str
deriving DecidableEq

/-- `Elf::normalize_path`: substitute `${ORIGIN}` (else `$ORIGIN`) with the
origin directory, keep the entry only if the result is absolute, and clean
it lexically. -/
def normalize_path (origin : Str) (path : Str) : Option Str :=
  let resolved :=
    if containsSub tokBraceOrigin path then replaceSub tokBraceOrigin origin path
    else if containsSub tokOrigin path then replaceSub tokOrigin origin path
    else path
  if resolved.head? = some '/' then some (cleanAbs resolved) else none

/-- `Elf::normalize_paths`: a non-empty RUNPATH wins, else RPATH, else
nothing; the chosen list is filtered and normalized in declaration order. -/
def normalize_paths (e : Elf) (origin : Str) : List Str :=
  if e.runpath ≠ [] then e.runpath.filterMap (normalize_path origin)
  else if e.rpath ≠ [] then e.rpath.filterMap (normalize_path origin)
  else []

/-- Modelled from the spec, §4.2 normalization rule, step 1: "If `s`
contains `${ORIGIN}`, substitute every occurrence with `origin`. Else if
`s` contains `$ORIGIN`, substitute likewise." -/
def specSubstituteOrigin (origin s : Str) : Str :=
  if containsSub tokBraceOrigin s then replaceSub tokBraceOrigin origin s
  else if containsSub tokOrigin s then replaceSub tokOrigin origin s
  else s

/-- Modelled from the spec, §4.2 normalization rule, steps 2–3: keep the
substituted entry when it begins with `/` (lexically normalized),
otherwise drop it as non-anchorable. -/
def specNormalizeEntry (origin s : Str) : Option Str :=
  let r := specSubstituteOrigin origin s
  if r.head? = some '/' then some (cleanAbs r) else none

/-! ### Package model -/

/-- `PackageFile` from `package/files.rs`. -/
inductive PackageFile
  | file
  | symlink (target : Str)
  | elf (e : Elf)
deriving DecidableEq

/-- Association-list lookup with decidable key equality, modelling
`HashMap::get` over maps whose keys are unique. -/
def lookupA (k : Str) : List (Str × β) → Option β
  | [] => none
  | (k', v) :: rest => if k' = k then some v else lookupA k rest

/-- A package: the immutable map from in-package absolute path to file
classification (`Package` in `package/mod.rs`). -/
structure Package where
  files : List (Str × PackageFile)
deriving DecidableEq

/-- `Package::symlinks`: the symlink subset, path ↦ target. -/
def Package.symlinks (p : Package) : List (Str × Str) :=
  p.files.filterMap (fun kf =>
    match kf.2 with
    | .symlink t => some (kf.1, t)
    | _ => none)

/-- `Package::elfs`: the ELF subset, path ↦ record. -/
def Package.elfs (p : Package) : List (Str × Elf) :=
  p.files.filterMap (fun kf =>
    match kf.2 with
    | .elf e => some (kf.1, e)
    | _ => none)

/-! ### Symlink resolver -/

/-- `SymlinkResolutionResult` from `report/symlink_resolver.rs`. -/
inductive SymlinkResolutionResult
  | notFound (target : Str)
  | found (target : Str)
  | cycleDetected
deriving DecidableEq

/-- `SymlinkResolver::resolve_single_symlink`, with an explicit fuel
argument standing for the recursion depth; `none` marks fuel exhaustion,
which `resolve_single_symlink_isSome` below proves unreachable at the
fuel used by `resolve_symlinks`. -/
def resolve_single_symlink (files : List (Str × PackageFile))
    (symlinks : List (Str × Str)) :
    Nat → Str → Str → List Str → Option SymlinkResolutionResult
  | 0, _, _, _ => none
  | fuel + 1, current, target, visited =>
    if current ∈ visited then some .cycleDetected
    else if (lookupA target files).isNone then some (.notFound target)
    else
      match lookupA target symlinks with
      | some next =>
        resolve_single_symlink files symlinks fuel target next (current :: visited)
      | none => some (.found target)

/-- `SymlinkResolver::resolve_symlinks`: one chain walk per symlink entry,
each starting from an empty `visited` set. -/
def resolve_symlinks (p : Package) :
    List (Str × Option SymlinkResolutionResult) :=
  p.symlinks.map (fun st =>
    (st.1,
     resolve_single_symlink p.files p.symlinks (p.symlinks.length + 1) st.1 st.2 []))

/-- `SymlinkResolver::resolve`: lookups by a path that is not a symlink
return `none`.  The inner `Option` layer from the fuelled walk is joined
away; it is proven to always be `some`. -/
def symResolve (p : Package) (path : Str) : Option SymlinkResolutionResult :=
  (lookupA path (resolve_symlinks p)).join

/-! ### Dependency resolver -/

/-- `DependencyStatus` from `report/dependency_resolver.rs`. -/
inductive DependencyStatus
  | found
  | missing
  | error (message : Str)
deriving DecidableEq

/-- `DependencyKind` from `report/dependency_resolver.rs`. -/
inductive DependencyKind
  | system
  | package
  | unknown
deriving DecidableEq

/-- `DependencyResolverResult` from `report/dependency_resolver.rs`. -/
structure DependencyResolverResult where
  status : DependencyStatus
  kind : DependencyKind
  path : Option Str
  searched_paths : List Str
deriving DecidableEq

/-- Rust `Path::file_name` on slash-normalized paths: the final non-empty,
non-`.` component, or nothing when the path is a root or ends in `..`. -/
def fileName (p : Str) : Option Str :=
  match ((splitSlash p).filter (fun c => c ≠ [] ∧ c ≠ ['.'])).getLast? with
  | some c => if c = ['.', '.'] then none else some c
  | none => none

/-- Rust `Path::parent` on slash-normalized paths without trailing
separator: strip the final component. -/
def rustParent (p : Str) : Option Str :=
  if p = [] ∨ p = ['/'] then none
  else
    let pre := ((p.reverse.dropWhile (· ≠ '/')).drop 1).reverse
    if pre = [] then
      if p.head? = some '/' then some ['/'] else some []
    else some pre

/-- `path.parent().unwrap_or_else(|| Path::new("/"))` as used in
`DependencyResolver::determine_search_paths`. -/
def originOf (p : Str) : Str := (rustParent p).getD ['/']

/-- Rust `Path::join` with the (relative or absolute) name `q`. -/
def joinPath (p q : Str) : Str :=
  if q.head? = some '/' then q
  else if p.getLast? = some '/' then p ++ q
  else p ++ '/' :: q

/-- `DependencyResolver::determine_search_paths`. -/
def determine_search_paths (path : Str) (e : Elf) : List Str :=
  normalize_paths e (originOf path)

/-- `DependencyResolver::resolve_package_dependency`. -/
def resolve_package_dependency (p : Package) (path : Str) :
    DependencyStatus × DependencyKind × Option Str :=
  if (lookupA path p.elfs).isSome then
    (.found, .package, some path)
  else if (lookupA path p.files).isSome then
    (.error (strL "Found in package, but not an ELF file: " ++ path), .package, some path)
  else
    (.missing, .unknown, none)

/-- `DependencyResolver::resolve_system_dependency`. -/
def resolve_system_dependency (sysdeps : List Str) (path : Str) :
    DependencyStatus × DependencyKind × Option Str :=
  let dependency_name := (fileName path).getD []
  if sysdeps.contains dependency_name then
    (.found, .system, some path)
  else
    (.missing, .unknown, some path)

/-- `DependencyResolver::find_dependency`. -/
def find_dependency (p : Package) (sysdeps : List Str) (path : Str) :
    DependencyStatus × DependencyKind × Option Str :=
  match symResolve p path with
  | some (.notFound t) => resolve_system_dependency sysdeps t
  | some (.found t) => resolve_package_dependency p t
  | some .cycleDetected =>
    (.error (strL "Symlink cycle detected: " ++ path), .unknown, none)
  | none => resolve_package_dependency p path

/-- The in-order directory loop inside
`DependencyResolver::resolve_dependency`: `all` is the full normalized
search-path list recorded in every emitted result. -/
def search_loop (p : Package) (sysdeps : List Str) (dep : Str) (all : List Str) :
    List Str → DependencyResolverResult
  | [] => ⟨.missing, .unknown, none, all⟩
  | s :: rest =>
    match find_dependency p sysdeps (joinPath s dep) with
    | (.missing, _, _) => search_loop p sysdeps dep all rest
    | (.found, kind, pa) => ⟨.found, kind, pa, all⟩
    | (.error m, kind, pa) => ⟨.error m, kind, pa, all⟩

/-- `DependencyResolver::resolve_dependency`. -/
def resolve_dependency (p : Package) (sysdeps : List Str) (path : Str) (e : Elf)
    (dep : Str) : DependencyResolverResult :=
  if sysdeps.contains dep then ⟨.found, .system, none, []⟩
  else
    let search_paths := determine_search_paths path e
    search_loop p sysdeps dep search_paths search_paths

/-- `HashMap::insert` on an association list: overwrite the binding in
place, or append a fresh one. -/
def insertA (m : List (Str × β)) (k : Str) (v : β) : List (Str × β) :=
  match m with
  | [] => [(k, v)]
  | (k', v') :: rest => if k' = k then (k, v) :: rest else (k', v') :: insertA rest k v

/-- `DependencyResolver::resolve`: one result per distinct dependency name
of the ELF, collected into a map keyed by the name (duplicate `DT_NEEDED`
entries overwrite with an identical value). -/
def resolve (p : Package) (sysdeps : List Str) (path : Str) (e : Elf) :
    List (Str × DependencyResolverResult) :=
  e.dependencies.foldl
    (fun m d => insertA m d (resolve_dependency p sysdeps path e d)) []

/-! ### Error scanner -/

/-- The filter stage of `scan_for_errors` in `report/errors.rs`: the
`(basename, path)` pairs of package entries whose basename is a declared
system dependency, excluding symlinks that resolve out of the package. -/
def scan_offenders (p : Package) (sysdeps : List Str) : List (Str × Str) :=
  p.files.filterMap (fun kf =>
    match fileName kf.1 with
    | none => none
    | some name =>
      if sysdeps.contains name then
        match symResolve p kf.1 with
        | some (.notFound _) => none
        | _ => some (name, kf.1)
      else none)

/-- Append `v` to the bucket of `k`, creating the bucket if absent
(`HashMap::entry(k).or_default().push(v)`). -/
def pushBucket (acc : List (Str × List Str)) (k : Str) (v : Str) :
    List (Str × List Str) :=
  match acc with
  | [] => [(k, [v])]
  | (k', vs) :: rest =>
    if k' = k then (k', vs ++ [v]) :: rest else (k', vs) :: pushBucket rest k v

/-- `scan_for_errors`: offenders grouped by basename; each entry models a
`SystemDependencyFoundInPackage { dependency, paths }` record. -/
def scan_for_errors (p : Package) (sysdeps : List Str) :
    List (Str × List Str) :=
  (scan_offenders p sysdeps).foldl (fun acc nv => pushBucket acc nv.1 nv.2) []

/-! ### Dependency totals -/

/-- `Totals` from `report/totals/dependencies.rs`. -/
structure Totals where
  missing : Nat
  missing_unique : Nat
  found : Nat
  found_unique : Nat
  error : Nat
  system : Nat
  package : Nat
  unknown : Nat
  total : Nat
  total_unique : Nat
deriving DecidableEq

/-- `Totals::default()`: the all-zero value. -/
def Totals.zero : Totals := ⟨0, 0, 0, 0, 0, 0, 0, 0, 0, 0⟩

/-- `impl Add for Totals`: counters add component-wise, `total` is
recomputed from the summed status counters, and the unique-basename
fields are reset to 0 (they are handled by `calculate`). -/
def Totals.add (a b : Totals) : Totals :=
  let missing := a.missing + b.missing
  let found := a.found + b.found
  let error := a.error + b.error
  { missing := missing
    found := found
    error := error
    system := a.system + b.system
    package := a.package + b.package
    unknown := a.unknown + b.unknown
    total := missing + found + error
    total_unique := 0
    missing_unique := 0
    found_unique := 0 }

instance : Add Totals := ⟨Totals.add⟩

/-- The per-result counter update inside `Totals::calculate`'s fold: one
status counter and one kind counter are each incremented. -/
def Totals.step (t : Totals) (r : DependencyResolverResult) : Totals :=
  let t1 :=
    match r.status with
    | .missing => { t with missing := t.missing + 1 }
    | .found => { t with found := t.found + 1 }
    | .error _ => { t with error := t.error + 1 }
  match r.kind with
  | .system => { t1 with system := t1.system + 1 }
  | .package => { t1 with package := t1.package + 1 }
  | .unknown => { t1 with unknown := t1.unknown + 1 }

/-- `Totals::calculate` over the per-ELF dependency results: fold the
counters from zero, reduce with `+` (which fills in `total`), then set
the three unique-basename counts from the deduplicated name sets. -/
def Totals.calculate
    (dependencies : List (Str × List (Str × DependencyResolverResult))) : Totals :=
  let pairs := (dependencies.map Prod.snd).flatten
  let folded := pairs.foldl (fun t dr => Totals.step t dr.2) Totals.zero
  let reduced := Totals.zero + folded
  { reduced with
    total_unique := (pairs.map Prod.fst).dedup.length
    missing_unique :=
      ((pairs.filter (fun dr => dr.2.status = .missing)).map Prod.fst).dedup.length
    found_unique :=
      ((pairs.filter (fun dr => dr.2.status = .found)).map Prod.fst).dedup.length }

/-! ### Helper lemmas -/

theorem findSub_eq_zero_iff (pat s : Str) :
    findSub pat s = some 0 ↔ isPre pat s = true := by
  cases s with
  | nil =>
    cases pat with
    | nil => simp [findSub, isPre, List.isEmpty]
    | cons a as => simp [findSub, isPre, List.isEmpty]
  | cons c rest =>
    simp only [findSub]
    cases h : isPre pat (c :: rest) with
    | true => simp [h]
    | false =>
      simp only [h, Bool.false_eq_true, if_false, iff_false]
      cases hfind : findSub pat rest with
      | none => simp [hfind]
      | some n => simp [hfind]

theorem findSub_none_isPre (pat s : Str) (h : findSub pat s = none) :
    isPre pat s = false := by
  by_cases hp : isPre pat s = true
  · rw [← findSub_eq_zero_iff] at hp
    rw [h] at hp
    exact absurd hp (by simp)
  · simpa using hp

/-! ### C1: validation of RPATH/RUNPATH entries -/

/-- C1 (counterexample): in `"${ORIGIN}/$ORIGIN"` the first occurrence of
either token begins at byte offset 0 (it is `${ORIGIN}`), so the claim
says the entry is valid; `Elf::invalid_path` nevertheless rejects it,
because the code looks up the position of `$ORIGIN` first and only falls
back to `${ORIGIN}` when `$ORIGIN` is absent. -/
theorem c1_first_token_counterexample :
    (strL "${ORIGIN}/$ORIGIN").head? ≠ some '/' ∧
    firstTokenPos (strL "${ORIGIN}/$ORIGIN") = some 0 ∧
    invalid_path (strL "${ORIGIN}/$ORIGIN") = true := by
  refine ⟨by decide, by decide, by decide⟩

/-- C1 (amended): for an entry `s` that does not begin with `/`, the
validator accepts `s` exactly when the occurrence it considers begins at
offset 0, where the considered occurrence is the first occurrence of
`$ORIGIN` when that token occurs at all, and otherwise the first
occurrence of `${ORIGIN}`; if neither token occurs, `s` is invalid, and
every invalid entry makes `Elf::validate` signal the `InvalidPaths`
offender message for it. -/
theorem c1_validator_accepts_anchored_origin (s : Str) (h : s.head? ≠ some '/') :
    (invalid_path s = false ↔
      (isPre tokOrigin s = true ∨
        (findSub tokOrigin s = none ∧ isPre tokBraceOrigin s = true))) ∧
    (invalid_path s = true →
      validate [s] [] = .error [strL "RPATH: " ++ s ++ strL " is invalid"]) := by
  constructor
  · rw [invalid_path, if_neg h]
    cases hA : findSub tokOrigin s with
    | some a =>
      change (a != 0) = false ↔ _
      simp only [bne_eq_false_iff_eq]
      constructor
      · intro ha
        subst ha
        exact Or.inl ((findSub_eq_zero_iff _ _).1 hA)
      · rintro (hpre | ⟨hnone, -⟩)
        · have h0 := (findSub_eq_zero_iff tokOrigin s).2 hpre
          rw [hA] at h0
          exact Option.some.inj h0
        · exact absurd hnone (by simp)
    | none =>
      have hAfalse := findSub_none_isPre _ _ hA
      cases hB : findSub tokBraceOrigin s with
      | some b =>
        change (b != 0) = false ↔ _
        simp only [bne_eq_false_iff_eq]
        constructor
        · intro hb
          subst hb
          exact Or.inr ⟨trivial, (findSub_eq_zero_iff _ _).1 hB⟩
        · rintro (hpre | ⟨-, hpre⟩)
          · rw [hpre] at hAfalse
            exact absurd hAfalse (by simp)
          · have h0 := (findSub_eq_zero_iff tokBraceOrigin s).2 hpre
            rw [hB] at h0
            exact Option.some.inj h0
      | none =>
        have hBfalse := findSub_none_isPre _ _ hB
        change (true = false) ↔ _
        simp [hAfalse, hBfalse]
  · intro hinv
    have hmsg : ∀ x : Str, strL "RPATH" ++ (strL ": " ++ x) = strL "RPATH: " ++ x := by
      intro x
      rw [← List.append_assoc]
      congr 1
    simp [validate, collect_invalid_paths, hinv, hmsg]

/-- C1 witness: the plain relative entry `lib` is invalid and surfaces the
`RPATH:` offender message. -/
theorem c1_validation_witness :
    validate [strL "lib"] []
      = .error [strL "RPATH: " ++ strL "lib" ++ strL " is invalid"] :=
  (c1_validator_accepts_anchored_origin (strL "lib") (by decide)).2 (by decide)

/-! ### C2: search-path precedence and normalization -/

/-- C2: a non-empty `runpath` is the only list consulted (the result does
not depend on `rpath` at all), `rpath` is used exactly when `runpath` is
empty and `rpath` is not, and the chosen list is mapped in declaration
order through the spec's entry normalization (substitute the origin,
drop entries that remain relative, lexically clean the rest). -/
theorem c2_runpath_precedence (k : ElfType) (deps rp rp' run : List Str) (origin : Str) :
    (run ≠ [] →
      normalize_paths ⟨k, deps, rp, run⟩ origin
          = run.filterMap (specNormalizeEntry origin) ∧
      normalize_paths ⟨k, deps, rp, run⟩ origin
          = normalize_paths ⟨k, deps, rp', run⟩ origin) ∧
    (run = [] → rp ≠ [] →
      normalize_paths ⟨k, deps, rp, run⟩ origin
          = rp.filterMap (specNormalizeEntry origin)) ∧
    (run = [] → rp = [] → normalize_paths ⟨k, deps, rp, run⟩ origin = []) := by
  refine ⟨fun hrun => ⟨?_, ?_⟩, fun hrun hrp => ?_, fun hrun hrp => ?_⟩
  · simp only [normalize_paths, if_pos hrun]
    rfl
  · simp only [normalize_paths, if_pos hrun]
  · simp only [normalize_paths, hrun, ne_eq, not_true_eq_false, if_false, if_pos hrp]
    rfl
  · simp [normalize_paths, hrun, hrp]

/-- C2 witness: with `runpath = ["/opt/lib"]` the arbitrary `rpath` values
`["/usr/lib"]` and `["../x"]` are never consulted. -/
theorem c2_runpath_precedence_witness :
    normalize_paths ⟨.Executable, [], [strL "/usr/lib"], [strL "/opt/lib"]⟩ (strL "/usr/bin")
        = [strL "/opt/lib"].filterMap (specNormalizeEntry (strL "/usr/bin")) ∧
    normalize_paths ⟨.Executable, [], [strL "/usr/lib"], [strL "/opt/lib"]⟩ (strL "/usr/bin")
        = normalize_paths ⟨.Executable, [], [strL "../x"], [strL "/opt/lib"]⟩ (strL "/usr/bin") :=
  (c2_runpath_precedence .Executable [] [strL "/usr/lib"] [strL "../x"]
    [strL "/opt/lib"] (strL "/usr/bin")).1 (by decide)

/-! ### C3: system dependency short-circuit -/

/-- C3: a needed name in the System Dependency Set resolves to
`Found`/`System` with no path and empty `searched_paths`, for every
package, ELF and ELF location. -/
theorem c3_system_short_circuit (p : Package) (sysdeps : List Str) (path : Str)
    (e : Elf) (d : Str) (h : sysdeps.contains d = true) :
    resolve_dependency p sysdeps path e d
      = ⟨.found, .system, none, []⟩ := by
  have hm : d ∈ sysdeps := by simpa using h
  simp [resolve_dependency, hm]

/-- Sample package: `/usr/bin/app` needing `libhello.so`, shipped at
`/usr/lib/libhello.so` (spec scenario S1/S2). -/
def appElf : Elf := ⟨.Executable, [strL "libhello.so"], [], [strL "$ORIGIN/../lib"]⟩

def helloPkg : Package :=
  ⟨[(strL "/usr/bin/app", .elf appElf),
    (strL "/usr/lib/libhello.so", .elf ⟨.SharedObject, [], [], []⟩)]⟩

/-- C3 witness: scenario S2, `libc.so.6` declared as system dependency. -/
theorem c3_short_circuit_witness :
    resolve_dependency helloPkg [strL "libc.so.6"] (strL "/usr/bin/app") appElf
        (strL "libc.so.6")
      = ⟨.found, .system, none, []⟩ :=
  c3_system_short_circuit helloPkg [strL "libc.so.6"] (strL "/usr/bin/app") appElf
    (strL "libc.so.6") (by decide)

/-! ### C4: status/kind invariant of emitted results -/

theorem resolve_package_dependency_cases (p : Package) (t : Str) :
    resolve_package_dependency p t = (.found, .package, some t) ∨
    resolve_package_dependency p t
        = (.error (strL "Found in package, but not an ELF file: " ++ t), .package, some t) ∨
    resolve_package_dependency p t = (.missing, .unknown, none) := by
  unfold resolve_package_dependency
  by_cases h1 : (lookupA t p.elfs).isSome
  · simp [h1]
  · by_cases h2 : (lookupA t p.files).isSome
    · simp [h1, h2]
    · simp [h1, h2]

theorem resolve_system_dependency_cases (sysdeps : List Str) (t : Str) :
    resolve_system_dependency sysdeps t = (.found, .system, some t) ∨
    resolve_system_dependency sysdeps t = (.missing, .unknown, some t) := by
  unfold resolve_system_dependency
  by_cases h : ((fileName t).getD []) ∈ sysdeps
  · simp [h]
  · simp [h]

theorem find_dependency_of_not_symlink (p : Package) (sysdeps : List Str) (c : Str)
    (h : symResolve p c = none) :
    find_dependency p sysdeps c = resolve_package_dependency p c := by
  unfold find_dependency
  rw [h]

theorem find_dependency_of_notFound (p : Package) (sysdeps : List Str) (c t : Str)
    (h : symResolve p c = some (.notFound t)) :
    find_dependency p sysdeps c = resolve_system_dependency sysdeps t := by
  unfold find_dependency
  rw [h]

theorem find_dependency_of_found (p : Package) (sysdeps : List Str) (c t : Str)
    (h : symResolve p c = some (.found t)) :
    find_dependency p sysdeps c = resolve_package_dependency p t := by
  unfold find_dependency
  rw [h]

theorem find_dependency_of_cycle (p : Package) (sysdeps : List Str) (c : Str)
    (h : symResolve p c = some .cycleDetected) :
    find_dependency p sysdeps c
      = (.error (strL "Symlink cycle detected: " ++ c), .unknown, none) := by
  unfold find_dependency
  rw [h]

theorem find_dependency_found_kind (p : Package) (sysdeps : List Str) (c : Str)
    (h : (find_dependency p sysdeps c).1 = .found) :
    (find_dependency p sysdeps c).2.1 = .system ∨
    (find_dependency p sysdeps c).2.1 = .package := by
  cases hr : symResolve p c with
  | none =>
    rw [find_dependency_of_not_symlink p sysdeps c hr] at h ⊢
    rcases resolve_package_dependency_cases p c with hc | hc | hc <;> rw [hc] at h ⊢ <;>
      simp_all
  | some res =>
    cases res with
    | notFound t =>
      rw [find_dependency_of_notFound p sysdeps c t hr] at h ⊢
      rcases resolve_system_dependency_cases sysdeps t with hc | hc <;> rw [hc] at h ⊢ <;>
        simp_all
    | found t =>
      rw [find_dependency_of_found p sysdeps c t hr] at h ⊢
      rcases resolve_package_dependency_cases p t with hc | hc | hc <;> rw [hc] at h ⊢ <;>
        simp_all
    | cycleDetected =>
      rw [find_dependency_of_cycle p sysdeps c hr] at h
      simp at h

theorem search_loop_trichotomy (p : Package) (sysdeps : List Str) (dep : Str)
    (all : List Str) (l : List Str) :
    ((search_loop p sysdeps dep all l).status = .missing ∧
     (search_loop p sysdeps dep all l).kind = .unknown ∧
     (search_loop p sysdeps dep all l).path = none) ∨
    ((search_loop p sysdeps dep all l).status = .found ∧
     ((search_loop p sysdeps dep all l).kind = .system ∨
      (search_loop p sysdeps dep all l).kind = .package)) ∨
    (∃ m, (search_loop p sysdeps dep all l).status = .error m) := by
  induction l with
  | nil => exact Or.inl ⟨rfl, rfl, rfl⟩
  | cons s rest ih =>
    rcases hfd : find_dependency p sysdeps (joinPath s dep) with ⟨st, k, pa⟩
    cases st with
    | missing =>
      simpa [search_loop, hfd] using ih
    | found =>
      have hk := find_dependency_found_kind p sysdeps (joinPath s dep) (by rw [hfd])
      rw [hfd] at hk
      refine Or.inr (Or.inl ?_)
      simp [search_loop, hfd]
      exact hk
    | error m =>
      refine Or.inr (Or.inr ⟨m, ?_⟩)
      simp [search_loop, hfd]

/-- C4: every emitted dependency result is either Missing/Unknown with no
path, or Found with System or Package kind, or an Error. -/
theorem c4_status_kind_invariant (p : Package) (sysdeps : List Str) (path : Str)
    (e : Elf) (d : Str) :
    ((resolve_dependency p sysdeps path e d).status = .missing ∧
     (resolve_dependency p sysdeps path e d).kind = .unknown ∧
     (resolve_dependency p sysdeps path e d).path = none) ∨
    ((resolve_dependency p sysdeps path e d).status = .found ∧
     ((resolve_dependency p sysdeps path e d).kind = .system ∨
      (resolve_dependency p sysdeps path e d).kind = .package)) ∨
    (∃ m, (resolve_dependency p sysdeps path e d).status = .error m) := by
  unfold resolve_dependency
  by_cases h : d ∈ sysdeps
  · simp [h]
  · have hc : sysdeps.contains d = false := by simpa using h
    rw [hc]
    simp only [Bool.false_eq_true, if_false]
    exact search_loop_trichotomy p sysdeps d _ _

/-! ### C5: symlink walk termination and cycle detection -/

theorem lookupA_isSome_iff_mem (k : Str) (m : List (Str × β)) :
    (lookupA k m).isSome = true ↔ k ∈ m.map Prod.fst := by
  induction m with
  | nil =>
    constructor
    · intro h
      exact Bool.noConfusion h
    · intro h
      cases h
  | cons kv rest ih =>
    rcases kv with ⟨k', v⟩
    rw [List.map_cons]
    by_cases h : k' = k
    · subst h
      rw [lookupA, if_pos rfl]
      constructor
      · intro _
        exact List.mem_cons_self _ _
      · intro _
        rfl
    · rw [lookupA, if_neg h]
      rw [ih]
      constructor
      · intro hmem
        exact List.mem_cons_of_mem _ hmem
      · intro hmem
        cases hmem with
        | head => exact absurd rfl h
        | tail _ hm => exact hm

/-- The symlink keys not yet on the `visited` list: the termination
measure of the chain walk. -/
def unvisited (l visited : List Str) : List Str :=
  l.filter (fun x => decide (x ∉ visited))

theorem unvisited_nil (l : List Str) : unvisited l [] = l := by
  simp [unvisited]

theorem unvisited_cons_length_lt (l visited : List Str) (a : Str)
    (ha : a ∈ l) (hv : a ∉ visited) :
    (unvisited l (a :: visited)).length < (unvisited l visited).length := by
  induction l with
  | nil => cases ha
  | cons x xs ih =>
    have hle : (unvisited xs (a :: visited)).length ≤ (unvisited xs visited).length := by
      apply List.Sublist.length_le
      apply List.monotone_filter_right
      intro y hy
      simp only [decide_eq_true_eq] at hy ⊢
      intro hmem
      exact hy (List.mem_cons_of_mem _ hmem)
    by_cases hx : x = a
    · subst hx
      have h1 : unvisited (x :: xs) (x :: visited) = unvisited xs (x :: visited) := by
        simp [unvisited, List.filter_cons]
      have h2 : unvisited (x :: xs) visited = x :: unvisited xs visited := by
        simp [unvisited, List.filter_cons, hv]
      rw [h1, h2]
      simpa using Nat.lt_succ_of_le hle
    · have ha' : a ∈ xs := by
        cases ha with
        | head => exact absurd rfl hx
        | tail _ hmem => exact hmem
      have hlt := ih ha'
      by_cases hxv : x ∈ visited
      · have h1 : unvisited (x :: xs) (a :: visited) = unvisited xs (a :: visited) := by
          simp [unvisited, List.filter_cons, hxv]
        have h2 : unvisited (x :: xs) visited = unvisited xs visited := by
          simp [unvisited, List.filter_cons, hxv]
        rw [h1, h2]
        exact hlt
      · have h1 : unvisited (x :: xs) (a :: visited) = x :: unvisited xs (a :: visited) := by
          simp [unvisited, List.filter_cons, hxv, hx]
        have h2 : unvisited (x :: xs) visited = x :: unvisited xs visited := by
          simp [unvisited, List.filter_cons, hxv]
        rw [h1, h2]
        simpa using hlt

theorem resolve_single_symlink_isSome (files : List (Str × PackageFile))
    (symlinks : List (Str × Str)) :
    ∀ (fuel : Nat) (current target : Str) (visited : List Str),
      current ∈ symlinks.map Prod.fst →
      (unvisited (symlinks.map Prod.fst) visited).length < fuel →
      (resolve_single_symlink files symlinks fuel current target visited).isSome = true := by
  intro fuel
  induction fuel with
  | zero =>
    intro _ _ _ _ hlen
    exact absurd hlen (Nat.not_lt_zero _)
  | succ n ih =>
    intro current target visited hcur hlen
    rw [resolve_single_symlink]
    by_cases hv : current ∈ visited
    · simp [hv]
    · rw [if_neg hv]
      by_cases hf : (lookupA target files).isNone
      · simp [hf]
      · rw [if_neg hf]
        cases hl : lookupA target symlinks with
        | none => simp
        | some next =>
          apply ih
          · exact (lookupA_isSome_iff_mem target symlinks).1 (by simp [hl])
          · have hlt := unvisited_cons_length_lt (symlinks.map Prod.fst) visited current hcur hv
            omega

/-- Spec scenario S4: the two-link cycle `/usr/lib/A → /usr/lib/B → /usr/lib/A`. -/
def cyclePkg : Package :=
  ⟨[(strL "/usr/lib/A", .symlink (strL "/usr/lib/B")),
    (strL "/usr/lib/B", .symlink (strL "/usr/lib/A"))]⟩

/-- A self-referencing symlink. -/
def selfCyclePkg : Package :=
  ⟨[(strL "/usr/lib/A", .symlink (strL "/usr/lib/A"))]⟩

/-- C5: the fuelled chain walk of every symlink of every finite package
completes within `|symlinks| + 1` steps (its stored result is never the
fuel-exhaustion marker), and revisiting walks yield `Cycle`: both members
of the two-link cycle `A → B → A` and a self-referencing symlink resolve
to `Cycle`. -/
theorem c5_symlink_walk_terminates :
    (∀ (p : Package) (k : Str) (r : Option SymlinkResolutionResult),
        (k, r) ∈ resolve_symlinks p → r.isSome = true) ∧
    symResolve cyclePkg (strL "/usr/lib/A") = some .cycleDetected ∧
    symResolve cyclePkg (strL "/usr/lib/B") = some .cycleDetected ∧
    symResolve selfCyclePkg (strL "/usr/lib/A") = some .cycleDetected := by
  refine ⟨?_, by decide, by decide, by decide⟩
  intro p k r hmem
  unfold resolve_symlinks at hmem
  rcases List.mem_map.1 hmem with ⟨⟨sp, tp⟩, hsp, heq⟩
  have hk : sp = k := congrArg Prod.fst heq
  have hr : resolve_single_symlink p.files p.symlinks (p.symlinks.length + 1) sp tp [] = r :=
    congrArg Prod.snd heq
  rw [← hr]
  apply resolve_single_symlink_isSome
  · exact List.mem_map.2 ⟨(sp, tp), hsp, rfl⟩
  · rw [unvisited_nil, List.length_map]
    omega

/-- C5 witness: the walk of `/usr/lib/A` in the two-link cycle package
stores a non-exhausted result. -/
theorem c5_termination_witness :
    (strL "/usr/lib/A", some SymlinkResolutionResult.cycleDetected)
        ∈ resolve_symlinks cyclePkg ∧
    (some SymlinkResolutionResult.cycleDetected).isSome = true :=
  ⟨by decide,
   c5_symlink_walk_terminates.1 cyclePkg (strL "/usr/lib/A")
     (some SymlinkResolutionResult.cycleDetected) (by decide)⟩

/-! ### C6: in-package candidate lookup halts or continues the directory loop -/

theorem elfs_keys_sub_files (p : Package) (t : Str) (h : t ∈ p.elfs.map Prod.fst) :
    t ∈ p.files.map Prod.fst := by
  rcases List.mem_map.1 h with ⟨⟨k, e⟩, hk, hfst⟩
  rcases List.mem_filterMap.1 hk with ⟨⟨k', f⟩, hkf, hmatch⟩
  cases f with
  | file => exact absurd hmatch (by simp)
  | symlink tgt => exact absurd hmatch (by simp)
  | elf e' =>
    simp only [Option.some.injEq, Prod.mk.injEq] at hmatch
    obtain ⟨hk', -⟩ := hmatch
    have hkt : k = t := hfst
    exact List.mem_map.2 ⟨(k', PackageFile.elf e'), hkf, hk'.trans hkt⟩

/-- C6: once a candidate `t` (the search-directory/dependency join, taken
through in-package symlink resolution) is looked up in the package: a
present non-ELF key halts the loop with the `Error` result, an ELF key
halts with `Found`/`Package`, and an absent key continues with the
remaining directories. -/
theorem c6_candidate_lookup_outcome (p : Package) (sysdeps : List Str)
    (dep : Str) (all : List Str) (s : Str) (rest : List Str) (t : Str)
    (ht : (symResolve p (joinPath s dep) = none ∧ t = joinPath s dep) ∨
          symResolve p (joinPath s dep) = some (.found t)) :
    ((lookupA t p.files).isSome = true → (lookupA t p.elfs).isSome = false →
      search_loop p sysdeps dep all (s :: rest)
        = ⟨.error (strL "Found in package, but not an ELF file: " ++ t),
           .package, some t, all⟩) ∧
    ((lookupA t p.elfs).isSome = true →
      search_loop p sysdeps dep all (s :: rest) = ⟨.found, .package, some t, all⟩) ∧
    ((lookupA t p.files).isSome = false →
      search_loop p sysdeps dep all (s :: rest) = search_loop p sysdeps dep all rest) := by
  have hfd : find_dependency p sysdeps (joinPath s dep) = resolve_package_dependency p t := by
    rcases ht with ⟨hnone, hteq⟩ | hfound
    · subst hteq
      exact find_dependency_of_not_symlink p sysdeps _ hnone
    · exact find_dependency_of_found p sysdeps _ t hfound
  refine ⟨fun hf he => ?_, fun he => ?_, fun hf => ?_⟩
  · have hrpd : resolve_package_dependency p t
        = (.error (strL "Found in package, but not an ELF file: " ++ t), .package, some t) := by
      unfold resolve_package_dependency
      rw [he, hf]
      simp
    simp [search_loop, hfd, hrpd]
  · have hrpd : resolve_package_dependency p t = (.found, .package, some t) := by
      unfold resolve_package_dependency
      rw [he]
      simp
    simp [search_loop, hfd, hrpd]
  · have he : (lookupA t p.elfs).isSome = false := by
      cases hval : (lookupA t p.elfs).isSome with
      | false => rfl
      | true =>
        have := elfs_keys_sub_files p t ((lookupA_isSome_iff_mem t p.elfs).1 hval)
        rw [← lookupA_isSome_iff_mem] at this
        rw [this] at hf
        exact Bool.noConfusion hf
    have hrpd : resolve_package_dependency p t = (.missing, .unknown, none) := by
      unfold resolve_package_dependency
      rw [he, hf]
      simp
    simp [search_loop, hfd, hrpd]

/-- Package for the C6 witness: `/usr/lib/libx` exists but is not an ELF. -/
def notElfPkg : Package :=
  ⟨[(strL "/usr/bin/app", .elf ⟨.Executable, [strL "libx"], [], [strL "$ORIGIN/../lib"]⟩),
    (strL "/usr/lib/libx", .file)]⟩

/-- C6 witness: the candidate `/usr/lib/libx` is present but not an ELF,
so the loop halts with the `Error` result. -/
theorem c6_not_elf_error_witness :
    search_loop notElfPkg [] (strL "libx") [strL "/usr/lib"] [strL "/usr/lib"]
      = ⟨.error (strL "Found in package, but not an ELF file: " ++ strL "/usr/lib/libx"),
         .package, some (strL "/usr/lib/libx"), [strL "/usr/lib"]⟩ :=
  (c6_candidate_lookup_outcome notElfPkg [] (strL "libx") [strL "/usr/lib"]
      (strL "/usr/lib") [] (strL "/usr/lib/libx")
      (Or.inl ⟨by decide, by decide⟩)).1 (by decide) (by decide)

/-! ### C7: scanner exemption for symlinks resolving out of the package -/

/-- Whether a stored symlink resolution is `NotFound` (out of package). -/
def isNotFoundRes : Option SymlinkResolutionResult → Bool
  | some (.notFound _) => true
  | _ => false

theorem mem_scan_offenders (p : Package) (sysdeps : List Str) (n pa : Str) :
    (n, pa) ∈ scan_offenders p sysdeps ↔
      ((∃ f, (pa, f) ∈ p.files) ∧ fileName pa = some n ∧ n ∈ sysdeps ∧
        isNotFoundRes (symResolve p pa) = false) := by
  unfold scan_offenders
  rw [List.mem_filterMap]
  constructor
  · rintro ⟨⟨k, f⟩, hkf, hmatch⟩
    cases hfn : fileName k with
    | none =>
      simp [hfn] at hmatch
    | some name =>
      by_cases hsysm : name ∈ sysdeps
      · cases hres : symResolve p k with
        | none =>
          simp only [hfn, hsysm, hres] at hmatch
          simp at hmatch
          obtain ⟨-, hn, hpa⟩ := hmatch
          subst hn
          subst hpa
          exact ⟨⟨f, hkf⟩, hfn, hsysm, by simp [isNotFoundRes, hres]⟩
        | some res =>
          cases res with
          | notFound t =>
            simp [hfn, hsysm, hres] at hmatch
          | found t =>
            simp only [hfn, hsysm, hres] at hmatch
            simp at hmatch
            obtain ⟨-, hn, hpa⟩ := hmatch
            subst hn
            subst hpa
            exact ⟨⟨f, hkf⟩, hfn, hsysm, by simp [isNotFoundRes, hres]⟩
          | cycleDetected =>
            simp only [hfn, hsysm, hres] at hmatch
            simp at hmatch
            obtain ⟨-, hn, hpa⟩ := hmatch
            subst hn
            subst hpa
            exact ⟨⟨f, hkf⟩, hfn, hsysm, by simp [isNotFoundRes, hres]⟩
      · simp [hfn, hsysm] at hmatch
  · rintro ⟨⟨f, hpf⟩, hfn, hsys, hnf⟩
    refine ⟨(pa, f), hpf, ?_⟩
    cases hres : symResolve p pa with
    | none => simp [hfn, hsys, hres]
    | some res =>
      cases res with
      | notFound t =>
        rw [hres] at hnf
        exact absurd hnf (by simp [isNotFoundRes])
      | found t => simp [hfn, hsys, hres]
      | cycleDetected => simp [hfn, hsys, hres]

theorem mem_pushBucket (acc : List (Str × List Str)) (k v n pa : Str) :
    (∃ ps, (n, ps) ∈ pushBucket acc k v ∧ pa ∈ ps) ↔
      ((∃ ps, (n, ps) ∈ acc ∧ pa ∈ ps) ∨ (n = k ∧ pa = v)) := by
  induction acc with
  | nil =>
    simp only [pushBucket]
    constructor
    · rintro ⟨ps, hmem, hpa⟩
      have hn : n = k := congrArg Prod.fst (List.mem_singleton.1 hmem)
      have hps : ps = [v] := congrArg Prod.snd (List.mem_singleton.1 hmem)
      subst hps
      exact Or.inr ⟨hn, List.mem_singleton.1 hpa⟩
    · rintro (⟨ps, hmem, hpa⟩ | ⟨hn, hpa⟩)
      · cases hmem
      · exact ⟨[v], by rw [hn]; exact List.mem_singleton.2 rfl,
          by rw [hpa]; exact List.mem_singleton.2 rfl⟩
  | cons b rest ih =>
    rcases b with ⟨k', vs⟩
    by_cases hk : k' = k
    · subst hk
      simp only [pushBucket, if_pos rfl]
      constructor
      · rintro ⟨ps, hmem, hpa⟩
        rcases List.mem_cons.1 hmem with heq | hmem'
        · have hn : n = k' := congrArg Prod.fst heq
          have hps : ps = vs ++ [v] := congrArg Prod.snd heq
          subst hps
          rcases List.mem_append.1 hpa with hv | hv
          · exact Or.inl ⟨vs, by rw [hn]; exact List.mem_cons_self _ _, hv⟩
          · exact Or.inr ⟨hn, List.mem_singleton.1 hv⟩
        · exact Or.inl ⟨ps, List.mem_cons_of_mem _ hmem', hpa⟩
      · rintro (⟨ps, hmem, hpa⟩ | ⟨hn, hpa⟩)
        · rcases List.mem_cons.1 hmem with heq | hmem'
          · have hn : n = k' := congrArg Prod.fst heq
            have hps : ps = vs := congrArg Prod.snd heq
            rw [hps] at hpa
            exact ⟨vs ++ [v], by rw [hn]; exact List.mem_cons_self _ _,
              List.mem_append_left _ hpa⟩
          · exact ⟨ps, List.mem_cons_of_mem _ hmem', hpa⟩
        · exact ⟨vs ++ [v], by rw [hn]; exact List.mem_cons_self _ _,
            by rw [hpa]; exact List.mem_append_right _ (List.mem_singleton.2 rfl)⟩
    · simp only [pushBucket, if_neg hk]
      constructor
      · rintro ⟨ps, hmem, hpa⟩
        rcases List.mem_cons.1 hmem with heq | hmem'
        · exact Or.inl ⟨ps, heq ▸ List.mem_cons_self _ _, hpa⟩
        · rcases ih.1 ⟨ps, hmem', hpa⟩ with ⟨ps', h1, h2⟩ | hkv
          · exact Or.inl ⟨ps', List.mem_cons_of_mem _ h1, h2⟩
          · exact Or.inr hkv
      · rintro (⟨ps, hmem, hpa⟩ | hkv)
        · rcases List.mem_cons.1 hmem with heq | hmem'
          · exact ⟨ps, heq ▸ List.mem_cons_self _ _, hpa⟩
          · rcases ih.2 (Or.inl ⟨ps, hmem', hpa⟩) with ⟨ps', h1, h2⟩
            exact ⟨ps', List.mem_cons_of_mem _ h1, h2⟩
        · rcases ih.2 (Or.inr hkv) with ⟨ps', h1, h2⟩
          exact ⟨ps', List.mem_cons_of_mem _ h1, h2⟩

theorem mem_groupFold (pairs : List (Str × Str)) (acc : List (Str × List Str)) (n pa : Str) :
    (∃ ps, (n, ps) ∈ pairs.foldl (fun a nv => pushBucket a nv.1 nv.2) acc ∧ pa ∈ ps) ↔
      ((∃ ps, (n, ps) ∈ acc ∧ pa ∈ ps) ∨ (n, pa) ∈ pairs) := by
  induction pairs generalizing acc with
  | nil => simp
  | cons q rest ih =>
    rcases q with ⟨k, v⟩
    rw [List.foldl_cons, ih (pushBucket acc k v), mem_pushBucket]
    constructor
    · rintro ((h | ⟨hn, hpa⟩) | h)
      · exact Or.inl h
      · subst hn
        subst hpa
        exact Or.inr (List.mem_cons_self _ _)
      · exact Or.inr (List.mem_cons_of_mem _ h)
    · rintro (h | h)
      · exact Or.inl (Or.inl h)
      · rcases List.mem_cons.1 h with heq | hmem
        · exact Or.inl (Or.inr ⟨congrArg Prod.fst heq, congrArg Prod.snd heq⟩)
        · exact Or.inr hmem

theorem mem_scan_for_errors (p : Package) (sysdeps : List Str) (n pa : Str) :
    (∃ ps, (n, ps) ∈ scan_for_errors p sysdeps ∧ pa ∈ ps) ↔
      (n, pa) ∈ scan_offenders p sysdeps := by
  unfold scan_for_errors
  rw [mem_groupFold]
  simp

/-- C7: a package entry that is a symlink resolving out of the package is
never listed in any scanner bucket, while every other entry whose
basename is a declared system dependency appears in that basename's
bucket. -/
theorem c7_scanner_symlink_exemption (p : Package) (sysdeps : List Str) (path : Str) :
    (isNotFoundRes (symResolve p path) = true →
      ∀ name paths, (name, paths) ∈ scan_for_errors p sysdeps → path ∉ paths) ∧
    (∀ f name, (path, f) ∈ p.files → fileName path = some name →
      name ∈ sysdeps → isNotFoundRes (symResolve p path) = false →
      ∃ paths, (name, paths) ∈ scan_for_errors p sysdeps ∧ path ∈ paths) := by
  constructor
  · intro hnf name paths hbuck hmem
    have hoff : (name, path) ∈ scan_offenders p sysdeps :=
      (mem_scan_for_errors p sysdeps name path).1 ⟨paths, hbuck, hmem⟩
    have h4 := ((mem_scan_offenders p sysdeps name path).1 hoff).2.2.2
    rw [hnf] at h4
    exact Bool.noConfusion h4
  · intro f name hpf hfn hsys hnf
    exact (mem_scan_for_errors p sysdeps name path).2
      ((mem_scan_offenders p sysdeps name path).2 ⟨⟨f, hpf⟩, hfn, hsys, hnf⟩)

/-- Package shipping a system library via an in-package symlink. -/
def shipSymlinkPkg : Package :=
  ⟨[(strL "/usr/lib/libm.so.6.actual", .file),
    (strL "/usr/lib/libm.so.6", .symlink (strL "/usr/lib/libm.so.6.actual"))]⟩

/-- C7 witness: the in-package symlink `/usr/lib/libm.so.6` is reported
under its basename bucket. -/
theorem c7_scanner_witness :
    ∃ paths, (strL "libm.so.6", paths) ∈ scan_for_errors shipSymlinkPkg [strL "libm.so.6"] ∧
      strL "/usr/lib/libm.so.6" ∈ paths :=
  (c7_scanner_symlink_exemption shipSymlinkPkg [strL "libm.so.6"]
      (strL "/usr/lib/libm.so.6")).2
    (.symlink (strL "/usr/lib/libm.so.6.actual")) (strL "libm.so.6")
    (by decide) (by decide) (by decide) (by decide)


/-! ### C8: the totals addition -/

/-- C8 (counterexample): the all-zero totals value is not an identity on
the whole structure — adding it resets a non-zero `missing_unique` (the
`Add` implementation zeroes the unique-basename fields). -/
theorem c8_identity_counterexample :
    Totals.mk 0 1 0 0 0 0 0 0 0 0 + Totals.zero ≠ Totals.mk 0 1 0 0 0 0 0 0 0 0 := by
  decide

/-- C8 (amended): totals addition is associative and commutative, and the
all-zero value is a left and right identity on the totals values the
reduction actually produces — those whose unique-basename fields are zero
and whose `total` equals `missing + found + error`. On the unique-basename
fields of arbitrary values it is not an identity (see the counterexample). -/
theorem c8_totals_add_comm_monoid :
    (∀ a b c : Totals, a + b + c = a + (b + c)) ∧
    (∀ a b : Totals, a + b = b + a) ∧
    (∀ t : Totals,
      t.missing_unique = 0 → t.found_unique = 0 → t.total_unique = 0 →
      t.total = t.missing + t.found + t.error →
      t + Totals.zero = t ∧ Totals.zero + t = t) := by
  refine ⟨?_, ?_, ?_⟩
  · intro a b c
    show Totals.add (Totals.add a b) c = Totals.add a (Totals.add b c)
    cases a
    cases b
    cases c
    simp [Totals.add, Totals.mk.injEq]
    omega
  · intro a b
    show Totals.add a b = Totals.add b a
    cases a
    cases b
    simp [Totals.add, Totals.mk.injEq]
    omega
  · intro t h1 h2 h3 h4
    cases t
    constructor
    · show Totals.add _ Totals.zero = _
      simp [Totals.add, Totals.zero, Totals.mk.injEq] at h1 h2 h3 h4 ⊢
      omega
    · show Totals.add Totals.zero _ = _
      simp [Totals.add, Totals.zero, Totals.mk.injEq] at h1 h2 h3 h4 ⊢
      omega

/-- C8 witness: on a consistent totals value (unique fields zero, `total`
equal to the status sum) zero is a two-sided identity. -/
theorem c8_identity_witness :
    (Totals.mk 2 0 1 0 3 1 1 4 6 0) + Totals.zero = Totals.mk 2 0 1 0 3 1 1 4 6 0 ∧
    Totals.zero + (Totals.mk 2 0 1 0 3 1 1 4 6 0) = Totals.mk 2 0 1 0 3 1 1 4 6 0 :=
  c8_totals_add_comm_monoid.2.2 (Totals.mk 2 0 1 0 3 1 1 4 6 0) rfl rfl rfl (by decide)

/-! ### C9: one result per distinct dependency name -/

theorem lookupA_insertA (m : List (Str × β)) (k k' : Str) (v : β) :
    lookupA k' (insertA m k v) = if k = k' then some v else lookupA k' m := by
  induction m with
  | nil => rfl
  | cons kv rest ih =>
    rcases kv with ⟨k0, v0⟩
    by_cases h0 : k0 = k
    · subst h0
      simp only [insertA, if_pos rfl]
      by_cases hk' : k0 = k'
      · simp [lookupA, hk']
      · simp [lookupA, hk']
    · simp only [insertA, if_neg h0]
      by_cases hk' : k0 = k'
      · subst hk'
        rw [lookupA, if_pos rfl, lookupA, if_pos rfl, if_neg (fun h => h0 h.symm)]
      · rw [lookupA, if_neg hk', ih, lookupA, if_neg hk']

theorem keys_insertA (m : List (Str × β)) (k : Str) (v : β) :
    (insertA m k v).map Prod.fst
      = if k ∈ m.map Prod.fst then m.map Prod.fst else m.map Prod.fst ++ [k] := by
  induction m with
  | nil =>
    show [k] = if k ∈ ([] : List Str) then ([] : List Str) else [] ++ [k]
    simp
  | cons kv rest ih =>
    rcases kv with ⟨k0, v0⟩
    by_cases h0 : k0 = k
    · subst h0
      rw [insertA, if_pos rfl, List.map_cons, List.map_cons,
        if_pos (List.mem_cons_self _ _)]
    · simp only [insertA, if_neg h0, List.map_cons, ih]
      by_cases hk : k ∈ rest.map Prod.fst
      · simp [hk, List.mem_cons]
      · have hnot : ¬ k ∈ (k0, v0).1 :: rest.map Prod.fst := by
          intro hmem
          rcases List.mem_cons.1 hmem with heq | hmem'
          · exact h0 heq.symm
          · exact hk hmem'
        simp only [hk, if_false, List.map_cons] at hnot ⊢
        rw [if_neg hnot]
        simp

theorem keys_insertA_nodup (m : List (Str × β)) (k : Str) (v : β)
    (h : (m.map Prod.fst).Nodup) : ((insertA m k v).map Prod.fst).Nodup := by
  rw [keys_insertA]
  by_cases hk : k ∈ m.map Prod.fst
  · rw [if_pos hk]
    exact h
  · rw [if_neg hk]
    simp [List.nodup_append, h, hk]

theorem foldl_insertA_lookup (f : Str → β) (l : List Str) (m0 : List (Str × β)) (d : Str) :
    lookupA d (l.foldl (fun m x => insertA m x (f x)) m0)
      = if d ∈ l then some (f d) else lookupA d m0 := by
  induction l generalizing m0 with
  | nil => exact (if_neg (List.not_mem_nil d)).symm
  | cons x xs ih =>
    rw [List.foldl_cons, ih]
    by_cases hd : d ∈ xs
    · rw [if_pos hd, if_pos (List.mem_cons_of_mem _ hd)]
    · rw [if_neg hd, lookupA_insertA]
      by_cases hx : x = d
      · subst hx
        rw [if_pos rfl, if_pos (List.mem_cons_self _ _)]
      · have hnot : ¬ d ∈ x :: xs := by
          intro hmem
          rcases List.mem_cons.1 hmem with heq | hmem'
          · exact hx heq.symm
          · exact hd hmem'
        rw [if_neg hx, if_neg hnot]

theorem foldl_insertA_keys_mem (f : Str → β) (l : List Str) (m0 : List (Str × β)) (d : Str) :
    d ∈ (l.foldl (fun m x => insertA m x (f x)) m0).map Prod.fst
      ↔ d ∈ m0.map Prod.fst ∨ d ∈ l := by
  induction l generalizing m0 with
  | nil =>
    constructor
    · exact fun h => Or.inl h
    · rintro (h | h)
      · exact h
      · cases h
  | cons x xs ih =>
    rw [List.foldl_cons, ih, keys_insertA]
    by_cases hx : x ∈ m0.map Prod.fst
    · rw [if_pos hx]
      constructor
      · rintro (h | h)
        · exact Or.inl h
        · exact Or.inr (List.mem_cons_of_mem _ h)
      · rintro (h | h)
        · exact Or.inl h
        · rcases List.mem_cons.1 h with heq | hmem
          · exact Or.inl (heq ▸ hx)
          · exact Or.inr hmem
    · rw [if_neg hx]
      constructor
      · rintro (h | h)
        · rcases List.mem_append.1 h with hm | hm
          · exact Or.inl hm
          · exact Or.inr (List.mem_cons.2 (Or.inl (List.mem_singleton.1 hm)))
        · exact Or.inr (List.mem_cons_of_mem _ h)
      · rintro (h | h)
        · exact Or.inl (List.mem_append_left _ h)
        · rcases List.mem_cons.1 h with heq | hmem
          · exact Or.inl (List.mem_append_right _ (List.mem_singleton.2 heq))
          · exact Or.inr hmem

theorem foldl_insertA_keys_nodup (f : Str → β) (l : List Str) (m0 : List (Str × β))
    (h : (m0.map Prod.fst).Nodup) :
    ((l.foldl (fun m x => insertA m x (f x)) m0).map Prod.fst).Nodup := by
  induction l generalizing m0 with
  | nil => exact h
  | cons x xs ih =>
    rw [List.foldl_cons]
    exact ih _ (keys_insertA_nodup m0 x (f x) h)

/-- C9: the per-ELF resolution map has pairwise distinct keys, its key set
is exactly the set of needed names, each name maps to its (unique)
resolution result, and the map size is the number of distinct needed
names — duplicate `DT_NEEDED` entries collapse. -/
theorem c9_one_result_per_name (p : Package) (sysdeps : List Str) (path : Str) (e : Elf) :
    ((resolve p sysdeps path e).map Prod.fst).Nodup ∧
    (∀ d, d ∈ (resolve p sysdeps path e).map Prod.fst ↔ d ∈ e.dependencies) ∧
    (∀ d, d ∈ e.dependencies →
      lookupA d (resolve p sysdeps path e)
        = some (resolve_dependency p sysdeps path e d)) ∧
    (resolve p sysdeps path e).length = e.dependencies.dedup.length := by
  have h1 : ((resolve p sysdeps path e).map Prod.fst).Nodup :=
    foldl_insertA_keys_nodup _ _ [] (by simp)
  have h2 : ∀ d, d ∈ (resolve p sysdeps path e).map Prod.fst ↔ d ∈ e.dependencies := by
    intro d
    unfold resolve
    rw [foldl_insertA_keys_mem]
    simp
  refine ⟨h1, h2, ?_, ?_⟩
  · intro d hd
    unfold resolve
    rw [foldl_insertA_lookup, if_pos hd]
  · have hperm : List.Perm ((resolve p sysdeps path e).map Prod.fst)
        e.dependencies.dedup :=
      (List.perm_ext_iff_of_nodup h1 (List.nodup_dedup _)).2
        (fun a => by rw [h2 a, List.mem_dedup])
    calc (resolve p sysdeps path e).length
        = ((resolve p sysdeps path e).map Prod.fst).length := (List.length_map _ _).symm
      _ = e.dependencies.dedup.length := hperm.length_eq

/-- ELF whose needed list repeats the same name. -/
def dupElf : Elf := ⟨.Executable, [strL "liba", strL "liba"], [], []⟩

/-- C9 witness: the duplicated name `liba` yields a single map entry
carrying its resolution result. -/
theorem c9_duplicates_witness :
    lookupA (strL "liba") (resolve helloPkg [] (strL "/usr/bin/app") dupElf)
      = some (resolve_dependency helloPkg [] (strL "/usr/bin/app") dupElf (strL "liba")) ∧
    (resolve helloPkg [] (strL "/usr/bin/app") dupElf).length = 1 :=
  ⟨(c9_one_result_per_name helloPkg [] (strL "/usr/bin/app") dupElf).2.2.1
      (strL "liba") (by decide),
   ((c9_one_result_per_name helloPkg [] (strL "/usr/bin/app") dupElf).2.2.2).trans
      (by decide)⟩

/-! ### C10: the totals are consistent with both partitions -/

theorem totals_step_sums (t : Totals) (r : DependencyResolverResult) :
    ((Totals.step t r).missing + (Totals.step t r).found + (Totals.step t r).error
        = t.missing + t.found + t.error + 1) ∧
    ((Totals.step t r).system + (Totals.step t r).package + (Totals.step t r).unknown
        = t.system + t.package + t.unknown + 1) := by
  rcases r with ⟨st, k, pa, sp⟩
  cases st <;> cases k <;> simp [Totals.step] <;> omega

theorem foldl_step_sums (pairs : List (Str × DependencyResolverResult)) (t : Totals) :
    ((pairs.foldl (fun t dr => Totals.step t dr.2) t).missing
        + (pairs.foldl (fun t dr => Totals.step t dr.2) t).found
        + (pairs.foldl (fun t dr => Totals.step t dr.2) t).error
      = t.missing + t.found + t.error + pairs.length) ∧
    ((pairs.foldl (fun t dr => Totals.step t dr.2) t).system
        + (pairs.foldl (fun t dr => Totals.step t dr.2) t).package
        + (pairs.foldl (fun t dr => Totals.step t dr.2) t).unknown
      = t.system + t.package + t.unknown + pairs.length) := by
  induction pairs generalizing t with
  | nil => simp
  | cons q rest ih =>
    rw [List.foldl_cons]
    obtain ⟨hs, hk⟩ := ih (Totals.step t q.2)
    obtain ⟨h1, h2⟩ := totals_step_sums t q.2
    constructor
    · rw [hs, h1, List.length_cons]
      omega
    · rw [hk, h2, List.length_cons]
      omega

theorem totals_hAdd_eq (a b : Totals) : a + b = Totals.add a b := rfl

/-- C10: the aggregated dependency totals satisfy both partition
identities: the grand total equals the sum of the status counters and the
sum of the kind counters. -/
theorem c10_totals_partition
    (dependencies : List (Str × List (Str × DependencyResolverResult))) :
    ((Totals.calculate dependencies).total
        = (Totals.calculate dependencies).missing + (Totals.calculate dependencies).found
            + (Totals.calculate dependencies).error) ∧
    ((Totals.calculate dependencies).total
        = (Totals.calculate dependencies).system + (Totals.calculate dependencies).package
            + (Totals.calculate dependencies).unknown) := by
  obtain ⟨hs, hk⟩ :=
    foldl_step_sums ((dependencies.map Prod.snd).flatten) Totals.zero
  rcases hfolded : ((dependencies.map Prod.snd).flatten).foldl
      (fun t dr => Totals.step t dr.2) Totals.zero with ⟨m, mu, f, fu, er, sy, pk, un, tot, tu⟩
  rw [hfolded] at hs hk
  simp only [Totals.zero] at hs hk
  constructor
  · simp only [Totals.calculate]
    rw [hfolded]
    simp [totals_hAdd_eq, Totals.zero, Totals.add]
  · simp only [Totals.calculate]
    rw [hfolded]
    simp [totals_hAdd_eq, Totals.zero, Totals.add]
    all_goals omega

end PV
